import Mathlib

/-!
Verification development for the text-buffer and cursor-navigation core of the
`devcode` editor (files `src/renderer/input.rs` and `src/renderer/code_view.rs`).

Modelling conventions:
* A Rust `String` is modelled as `List Char` (Rust `char` and Lean `Char` are both
  Unicode scalar values).  `String::len` (UTF-8 byte length) is modelled by `utf8Len`,
  built from `charLen` which models `char::len_utf8`.
* Fallible/panicking Rust code is modelled in `Option`: a `none` result means the
  Rust code panics (out-of-bounds index, `unwrap` on `None`, failed assertion);
  `some` carries the updated state.  Where a Rust function itself returns an
  `Option` (such as `cursor_x_position`), the model returns `Option (Option _)`:
  the outer layer is the panic layer, the inner layer is the function's own option.
* Pixel positions (`f32` in the source) are modelled as integers `ℤ`; the glyph
  layout of `wgpu_glyph` (an external crate) is modelled by a `FontMetrics`
  parameter giving each character an advance width `adv` (so the position of glyph
  `i` is the prefix sum of advances) and a bounds width `bw` (the value of
  `font.glyph_bounds(..).width()` used for the end-of-line position).
* Grapheme segmentation (external crate `unicode_segmentation`) is modelled from
  the spec: a segmentation in which a combining character (U+0300–U+036F) never
  starts a new cluster, matching UAX #29 rule GB9 on the character repertoire
  exercised here; ASCII characters are single-character clusters.
-/

/-- Model of Rust `char::len_utf8`: the number of UTF-8 bytes of a scalar value. -/
def charLen (c : Char) : Nat :=
  if c.toNat < 0x80 then 1
  else if c.toNat < 0x800 then 2
  else if c.toNat < 0x10000 then 3
  else 4

/-- Model of Rust `String::len`: the UTF-8 byte length of a string. -/
def utf8Len (l : List Char) : Nat := (l.map charLen).sum

/-- Split a character list at every `'\n'`, keeping the (possibly empty) parts.
Auxiliary for the model of `str::lines`. -/
def splitNl : List Char → List (List Char)
  | [] => [[]]
  | c :: rest =>
    match splitNl rest with
    | [] => [[]]
    | p :: ps => if c = '\n' then [] :: p :: ps else (c :: p) :: ps

/-- Strip one trailing `'\r'` from a line, as `str::lines` does for `\r\n` endings. -/
def stripCr (l : List Char) : List Char :=
  if l.getLast? = some '\r' then l.dropLast else l

/-- Model of Rust `str::lines`: split on `'\n'`, drop the trailing empty part that a
final terminator produces (so the empty string yields NO lines), and strip one
trailing `'\r'` from every terminated line. -/
def rustLines (s : List Char) : List (List Char) :=
  let ps := splitNl s
  if ps.getLast? = some [] then ps.dropLast.map stripCr
  else ps.dropLast.map stripCr ++ ps.getLast?.toList

/-- Whether the source string ends with a newline (`text.ends_with('\n')`). -/
def endsWithNl (s : List Char) : Bool := s.getLast? = some '\n'

/-- The line-splitting performed by `CodeView::new` (code_view.rs lines 51–55):
`text.lines()` collected, plus one empty line pushed when the source ends with
`'\n'`. -/
def codeView_split_text (source : List Char) : List (List Char) :=
  let st := rustLines source
  if endsWithNl source then st ++ [[]] else st

/-- The line-splitting performed by `TextArea::_new` (input.rs lines 61–65): the
trailing empty line is pushed only in multiline mode. -/
def textArea_split_text (multiline : Bool) (source : List Char) : List (List Char) :=
  let st := rustLines source
  if multiline then (if endsWithNl source then st ++ [[]] else st) else st

/-- Whether a character is a combining mark of the Combining Diacritical Marks
block (U+0300–U+036F).  Modelled from the spec: stands in for the grapheme-extend
property used by the external `unicode_segmentation` crate. -/
def isExtend (c : Char) : Bool := decide (0x300 ≤ c.toNat ∧ c.toNat ≤ 0x36F)

/-- Modelled from the spec: grapheme-cluster segmentation of a line (the external
`unicode_segmentation` crate).  A cluster boundary falls before every character
that is not a combining mark; a combining mark always attaches to the cluster of
the preceding character (UAX #29 rule GB9 for this repertoire). -/
def graphemeClusters : List Char → List (List Char)
  | [] => []
  | c :: rest =>
    match graphemeClusters rest with
    | [] => [[c]]
    | [] :: gs => [c] :: [] :: gs
    | (d :: ds) :: gs =>
      if isExtend d then (c :: d :: ds) :: gs else [c] :: (d :: ds) :: gs

/-- Pair every grapheme cluster with its starting byte offset, starting at `off`. -/
def graphemeIndicesAux (off : Nat) : List (List Char) → List (Nat × List Char)
  | [] => []
  | g :: gs => (off, g) :: graphemeIndicesAux (off + utf8Len g) gs

/-- Model of `str::grapheme_indices(true)`: the list of
(byte offset, grapheme cluster) pairs of a line. -/
def graphemeIndices (l : List Char) : List (Nat × List Char) :=
  graphemeIndicesAux 0 (graphemeClusters l)

/-- Model of Rust `String::remove(idx)`: remove the single character starting at
byte index `idx`; `none` models the panic when `idx` is not a character boundary
or is not strictly inside the string. -/
def removeCharAtByte : List Char → Nat → Option (List Char)
  | [], _ => none
  | c :: rest, n =>
    if n = 0 then some rest
    else if n < charLen c then none
    else (removeCharAtByte rest (n - charLen c)).map (fun l => c :: l)

/-- Model of Rust `String::split_off(idx)`: split at byte index `idx`, returning
(kept prefix, returned suffix); `none` models the panic when `idx` is not a
character boundary or exceeds the byte length. -/
def splitAtByte : List Char → Nat → Option (List Char × List Char)
  | l, 0 => some ([], l)
  | [], _ => none
  | c :: rest, n =>
    if n < charLen c then none
    else (splitAtByte rest (n - charLen c)).map (fun p => (c :: p.1, p.2))

/-- Model of Rust `String::insert(idx, ch)`: insert one character at byte index
`idx`; `none` models the panic when `idx` is not a character boundary or exceeds
the byte length. -/
def insertCharAtByte : List Char → Nat → Char → Option (List Char)
  | l, 0, ch => some (ch :: l)
  | [], _, _ => none
  | c :: rest, n, ch =>
    if n < charLen c then none
    else (insertCharAtByte rest (n - charLen c) ch).map (fun l => c :: l)

/-- The external glyph layout, reduced to what the core consumes: a per-character
advance width `adv` (glyph `i` of a line sits at the prefix sum of the advances
before it) and a bounds width `bw` (`font.glyph_bounds(..).width()`). -/
structure FontMetrics where
  adv : Char → ℤ
  bw : Char → ℤ

/-- Pixel x-position of glyph `i` of `line`, measured from screen position `off`:
the prefix sum of the advance widths of the glyphs before it. -/
def glyphX (m : FontMetrics) (off : ℤ) (line : List Char) (i : Nat) : ℤ :=
  off + ((line.take i).map m.adv).sum

/-- The per-line body of `cursor_x_position` (input.rs lines 187–217), after the
glyph layout of the row's line has been computed: `section_glyphs.get(column)`
yields the glyph's position; otherwise, for `column ≠ 0`,
`section_glyphs.get(column - 1)` yields the previous glyph's position plus its
bounds width; otherwise `None`.  Note the layout is per *character* (one glyph per
scalar value), not per grapheme cluster. -/
def xAtLine (m : FontMetrics) (off : ℤ) (cs : List Char) (column : Nat) : Option ℤ :=
  match cs[column]? with
  | some _ => some (glyphX m off cs column)
  | none =>
    if column ≠ 0 then
      (cs[column - 1]?).map (fun c => glyphX m off cs (column - 1) + m.bw c)
    else none

/-- Model of `cursor_x_position` (input.rs lines 187–217).  The outer `Option` is
the panic layer: `&text[row]` panics when `row` is out of bounds.  The inner
`Option` is the function's own return value. -/
def cursor_x_position (m : FontMetrics) (row column : Nat) (text : List (List Char))
    (off : ℤ) : Option (Option ℤ) :=
  (text[row]?).map (fun line => xAtLine m off line column)

/-- Cursor state of input.rs (`Cursor`, lines 9–15), without the drawable
rectangle, which is derived geometry owned by the renderer. -/
structure Cursor where
  row : Nat
  column : Nat
  x_offset : ℤ
  deriving DecidableEq

/-- The state mutated by `input_special` / `input_char`: the text buffer plus the
cursor. -/
structure EditorState where
  text : List (List Char)
  cursor : Cursor
  deriving DecidableEq

/-- The navigation keys handled by `input_special`; `other` is the `_ => return`
arm. -/
inductive Key
  | up
  | down
  | left
  | right
  | other
  deriving DecidableEq

/-- The repeated code path `cursor.column = text[cursor.row].len();
cursor.x_offset = cursor_x_position2(cursor.row, cursor.column).unwrap_or(0.0)`
(input.rs lines 248–250, 264–266, 275–277, 280–282): clamp the column to the
line's BYTE length and recompute the x offset, defaulting to 0. -/
def clampToLineEnd (m : FontMetrics) (sc : ℤ) (text : List (List Char)) (row : Nat) :
    Option (Nat × ℤ) :=
  match text[row]? with
  | none => none
  | some line =>
    match cursor_x_position m row (utf8Len line) text sc with
    | none => none
    | some r => some (utf8Len line, r.getD 0)

/-- Model of `input_special` (input.rs lines 220–314).  `sc` is the
`scroll_offset.x` passed to `cursor_x_position2`; the final
`cursor.rect.resize` is derived caret geometry and is not part of the state
modelled here.  A `none` result models a panic. -/
def input_special (m : FontMetrics) (sc : ℤ) (key : Key) (s : EditorState) :
    Option EditorState :=
  let text := s.text
  let c := s.cursor
  match key with
  | .up =>
    if c.row ≠ 0 then
      let row := c.row - 1
      match cursor_x_position m row c.column text sc with
      | none => none
      | some (some off) => some ⟨text, ⟨row, c.column, off⟩⟩
      | some none =>
        match clampToLineEnd m sc text row with
        | none => none
        | some (col, x) => some ⟨text, ⟨row, col, x⟩⟩
    else some ⟨text, ⟨c.row, 0, 0⟩⟩
  | .left =>
    if c.column ≠ 0 then
      match cursor_x_position m c.row (c.column - 1) text sc with
      | none => none
      | some none => none
      | some (some off) => some ⟨text, ⟨c.row, c.column - 1, off⟩⟩
    else if c.row ≠ 0 then
      match clampToLineEnd m sc text (c.row - 1) with
      | none => none
      | some (col, x) => some ⟨text, ⟨c.row - 1, col, x⟩⟩
    else some ⟨text, c⟩
  | .down =>
    if text.length = 0 then none
    else if c.row ≠ text.length - 1 then
      let row := c.row + 1
      match cursor_x_position m row c.column text sc with
      | none => none
      | some (some off) => some ⟨text, ⟨row, c.column, off⟩⟩
      | some none =>
        match clampToLineEnd m sc text row with
        | none => none
        | some (col, x) => some ⟨text, ⟨row, col, x⟩⟩
    else
      match clampToLineEnd m sc text c.row with
      | none => none
      | some (col, x) => some ⟨text, ⟨c.row, col, x⟩⟩
  | .right =>
    if text.length = 0 then none
    else if c.row ≠ text.length - 1 then
      match cursor_x_position m c.row (c.column + 1) text sc with
      | none => none
      | some (some off) => some ⟨text, ⟨c.row, c.column + 1, off⟩⟩
      | some none => some ⟨text, ⟨c.row + 1, 0, 0⟩⟩
    else
      match cursor_x_position m c.row (c.column + 1) text sc with
      | none => none
      | some (some off) => some ⟨text, ⟨c.row, c.column + 1, off⟩⟩
      | some none => some ⟨text, c⟩
  | .other => some ⟨text, c⟩

/-- Model of `input_char` (input.rs lines 317–380).  The three arms are
backspace (`'\u{7f}'`), enter (`'\r'`), and plain character insertion; each ends
by re-dispatching to `input_special`.  The trailing `max_line_length` recompute
returns a scroll metric and does not change the state, so it is omitted.  A
`none` result models a panic. -/
def input_char (m : FontMetrics) (sc : ℤ) (ch : Char) (s : EditorState) :
    Option EditorState :=
  let text := s.text
  let c := s.cursor
  if ch = '\x7f' then
    if c.column ≠ 0 then
      match text[c.row]? with
      | none => none
      | some line =>
        match (graphemeIndices line)[c.column - 1]? with
        | none => none
        | some p =>
          match removeCharAtByte line p.1 with
          | none => none
          | some line2 =>
            input_special m sc .left ⟨text.set c.row line2, c⟩
    else if c.row ≠ 0 then
      match text[c.row]? with
      | none => none
      | some removed =>
        let text2 := text.eraseIdx c.row
        let row2 := c.row - 1
        match text2[row2]? with
        | none => none
        | some prev =>
          input_special m sc .left
            ⟨text2.set row2 (prev ++ removed), ⟨row2, utf8Len prev + 1, c.x_offset⟩⟩
    else some s
  else if ch = '\r' then
    match text[c.row]? with
    | none => none
    | some line =>
      let idx :=
        match (graphemeIndices line)[c.column]? with
        | some p => p.1
        | none => utf8Len line
      match splitAtByte line idx with
      | none => none
      | some p =>
        input_special m sc .right ⟨(text.set c.row p.1).insertIdx (c.row + 1) p.2, c⟩
  else
    match text[c.row]? with
    | none => none
    | some line =>
      let idx :=
        match (graphemeIndices line)[c.column]? with
        | some p => p.1
        | none => utf8Len line
      match insertCharAtByte line idx ch with
      | none => none
      | some line2 =>
        input_special m sc .right ⟨text.set c.row line2, c⟩

/-- Run a sequence of navigation keys through `input_special`, propagating
panics. -/
def runKeys (m : FontMetrics) (sc : ℤ) (keys : List Key) (s : EditorState) :
    Option EditorState :=
  keys.foldlM (fun s k => input_special m sc k s) s

/-- State of `CodeView` (code_view.rs lines 8–20) restricted to the fields the
navigation logic reads and writes: the lines, the cursor (row, column, pixel
x-offset).  The drawable rectangles, scroll offset and glyph cache are rendering
state outside the claims. -/
structure CodeViewState where
  text : List (List Char)
  row : Nat
  column : Nat
  x_offset : ℤ
  deriving DecidableEq

/-- The fresh `CodeView` built by `CodeView::new` (code_view.rs lines 44–115):
lines split from the source, cursor at (0,0) with x offset 0. -/
def codeView_new (source : List Char) : CodeViewState :=
  ⟨codeView_split_text source, 0, 0, 0⟩

/-- The keys `CodeView::input` handles; `back` is `VirtualKeyCode::Back`
(backspace) and `other` the `_ => {}` arm. -/
inductive CvKey
  | up
  | down
  | left
  | right
  | back
  | other
  deriving DecidableEq

/-- Model of `CodeView::get_char` (code_view.rs lines 117–119):
`self.text[row].chars().nth(column)`.  The outer `Option` models the panic of
`self.text[row]` when `row` is out of bounds; the inner one is `nth`'s result.
Note the index is a CHARACTER index, not a grapheme index. -/
def get_char (s : CodeViewState) (row column : Nat) : Option (Option Char) :=
  (s.text[row]?).map (fun cs => cs[column]?)

/-- Model of `CodeView::get_char_width` (code_view.rs lines 121–125): look the
character up in `font_width_map` (modelled as `w : Char → Option ℤ`) and
`unwrap`, so a character missing from the map is a panic (`none` outer). -/
def get_char_width (w : Char → Option ℤ) (s : CodeViewState) (row column : Nat) :
    Option (Option ℤ) :=
  match get_char s row column with
  | none => none
  | some none => some none
  | some (some c) =>
    match w c with
    | none => none
    | some x => some (some x)

/-- Sum of the widths of a list of characters, each looked up with `unwrap`:
models the loops `for (i, _) in self.text[r].chars().enumerate() { ... +=
self.get_char_width(r, i).unwrap() }`; `none` models the panic when some
character is missing from the width map. -/
def sumWidths (w : Char → Option ℤ) (cs : List Char) : Option ℤ :=
  (cs.mapM w).map (fun l => l.sum)

/-- The shared body of the `Up`/`Down` arms of `CodeView::input` after the row
has been moved (code_view.rs lines 150–169 and 173–189): if a character exists at
the old column in the target row, keep the column and recompute the x offset as
the sum of the first `column` widths; otherwise move the column to the target
line's character count with the full-line width sum.  Returns (column, x). -/
def cvVertical (w : Char → Option ℤ) (text : List (List Char)) (column row : Nat) :
    Option (Nat × ℤ) :=
  match text[row]? with
  | none => none
  | some cs =>
    match cs[column]? with
    | some _ => (sumWidths w (cs.take column)).map (fun x => (column, x))
    | none => (sumWidths w cs).map (fun x => (cs.length, x))

/-- The whole-line clamp used by `Down` at the bottom and by `handle_left` when
crossing a row (code_view.rs lines 136–143, 190–198): column becomes the line's
character count, x the full-line width sum. -/
def cvLineEnd (w : Char → Option ℤ) (text : List (List Char)) (row : Nat) :
    Option (Nat × ℤ) :=
  match text[row]? with
  | none => none
  | some cs => (sumWidths w cs).map (fun x => (cs.length, x))

/-- Model of the `handle_left` closure of `CodeView::input` (code_view.rs lines
128–145). -/
def handle_left (w : Char → Option ℤ) (s : CodeViewState) : Option CodeViewState :=
  if s.column ≠ 0 then
    match get_char_width w s s.row (s.column - 1) with
    | none => none
    | some none => none
    | some (some width) =>
      some ⟨s.text, s.row, s.column - 1, s.x_offset - width⟩
  else if s.row ≠ 0 then
    match cvLineEnd w s.text (s.row - 1) with
    | none => none
    | some p => some ⟨s.text, s.row - 1, p.1, p.2⟩
  else some s

/-- Model of `CodeView::input` (code_view.rs lines 127–235).  The final
`self.cursor.resize` is derived caret geometry, not modelled.  A `none` result
models a panic.  Note the `Down` arm's guard compares `cursor_row` with
`text.len()` (not `len() - 1`), and the `Back` arm removes at byte index
`cursor_column` of the merged position. -/
def codeView_input (w : Char → Option ℤ) (key : CvKey) (s : CodeViewState) :
    Option CodeViewState :=
  match key with
  | .up =>
    if s.row ≠ 0 then
      match cvVertical w s.text s.column (s.row - 1) with
      | none => none
      | some p => some ⟨s.text, s.row - 1, p.1, p.2⟩
    else some ⟨s.text, s.row, 0, 0⟩
  | .left => handle_left w s
  | .down =>
    if s.row ≠ s.text.length then
      match cvVertical w s.text s.column (s.row + 1) with
      | none => none
      | some p => some ⟨s.text, s.row + 1, p.1, p.2⟩
    else
      match cvLineEnd w s.text s.row with
      | none => none
      | some p => some ⟨s.text, s.row, p.1, p.2⟩
  | .right =>
    match get_char_width w s s.row s.column with
    | none => none
    | some (some width) =>
      some ⟨s.text, s.row, s.column + 1, s.x_offset + width⟩
    | some none => some ⟨s.text, s.row + 1, 0, 0⟩
  | .back =>
    match handle_left w s with
    | none => none
    | some s2 =>
      match s2.text[s2.row]? with
      | none => none
      | some cs =>
        match removeCharAtByte cs s2.column with
        | none => none
        | some cs2 => some ⟨s2.text.set s2.row cs2, s2.row, s2.column, s2.x_offset⟩
  | .other => some s

/-- Run a sequence of keys through `CodeView::input`, propagating panics. -/
def cvRun (w : Char → Option ℤ) (keys : List CvKey) (s : CodeViewState) :
    Option CodeViewState :=
  keys.foldlM (fun s k => codeView_input w k s) s

/-- A concrete font model in which every glyph has advance width and bounds
width 1, and a width map defined on every character; used for concrete runs. -/
def unitMetrics : FontMetrics := ⟨fun _ => 1, fun _ => 1⟩

/-- A width map defined on every character, each of width 1. -/
def unitWidths : Char → Option ℤ := fun _ => some 1

theorem charLen_pos (c : Char) : 0 < charLen c := by
  unfold charLen
  split
  · omega
  · split
    · omega
    · split <;> omega

theorem utf8Len_cons (c : Char) (cs : List Char) :
    utf8Len (c :: cs) = charLen c + utf8Len cs := by
  simp [utf8Len]

theorem utf8Len_append (a b : List Char) :
    utf8Len (a ++ b) = utf8Len a + utf8Len b := by
  simp [utf8Len]

theorem utf8Len_ascii (l : List Char) (h : ∀ c ∈ l, charLen c = 1) :
    utf8Len l = l.length := by
  induction l with
  | nil => rfl
  | cons c cs ih =>
    rw [utf8Len_cons, h c (List.mem_cons_self c cs),
      ih (fun d hd => h d (List.mem_cons_of_mem c hd))]
    simp [Nat.add_comm]

theorem splitAtByte_zero (l : List Char) : splitAtByte l 0 = some ([], l) := by
  cases l <;> rfl

theorem splitAtByte_cons (c : Char) (cs : List Char) (n : Nat) (h : n ≠ 0) :
    splitAtByte (c :: cs) n =
      if n < charLen c then none
      else (splitAtByte cs (n - charLen c)).map (fun p => (c :: p.1, p.2)) := by
  cases n with
  | zero => exact absurd rfl h
  | succ k => rfl

theorem splitAtByte_utf8Len (a b : List Char) :
    splitAtByte (a ++ b) (utf8Len a) = some (a, b) := by
  induction a with
  | nil => simpa [utf8Len] using splitAtByte_zero b
  | cons c cs ih =>
    have hc := charLen_pos c
    rw [List.cons_append, splitAtByte_cons c (cs ++ b) _ (by rw [utf8Len_cons]; omega),
      if_neg (by rw [utf8Len_cons]; omega), utf8Len_cons, Nat.add_sub_cancel_left, ih]
    rfl

theorem insertCharAtByte_cons (c : Char) (cs : List Char) (n : Nat) (ch : Char)
    (h : n ≠ 0) :
    insertCharAtByte (c :: cs) n ch =
      if n < charLen c then none
      else (insertCharAtByte cs (n - charLen c) ch).map (fun l => c :: l) := by
  cases n with
  | zero => exact absurd rfl h
  | succ k => rfl

theorem insertCharAtByte_append (l : List Char) (ch : Char) :
    insertCharAtByte l (utf8Len l) ch = some (l ++ [ch]) := by
  induction l with
  | nil => rfl
  | cons c cs ih =>
    have hc := charLen_pos c
    rw [insertCharAtByte_cons c cs _ ch (by rw [utf8Len_cons]; omega),
      if_neg (by rw [utf8Len_cons]; omega), utf8Len_cons, Nat.add_sub_cancel_left, ih]
    rfl

theorem flatten_graphemeClusters (l : List Char) : (graphemeClusters l).flatten = l := by
  induction l with
  | nil => rfl
  | cons c rest ih =>
    rcases hg : graphemeClusters rest with _ | ⟨g, gs⟩
    · rw [hg] at ih
      simp at ih
      simp [graphemeClusters, hg, ← ih]
    · cases g with
      | nil =>
        rw [hg] at ih
        simp only [graphemeClusters, hg]
        simp only [List.flatten_cons] at ih ⊢
        simp [ih]
      | cons d ds =>
        rw [hg] at ih
        simp only [graphemeClusters, hg]
        split <;> simp_all

theorem graphemeIndicesAux_length (off : Nat) (gs : List (List Char)) :
    (graphemeIndicesAux off gs).length = gs.length := by
  induction gs generalizing off with
  | nil => rfl
  | cons g gs ih => simp [graphemeIndicesAux, ih]

theorem graphemeIndicesAux_getElem (off : Nat) (gs : List (List Char)) (k : Nat) :
    (graphemeIndicesAux off gs)[k]? =
      (gs[k]?).map (fun g => (off + utf8Len ((gs.take k).flatten), g)) := by
  induction gs generalizing off k with
  | nil => simp [graphemeIndicesAux]
  | cons g gs ih =>
    cases k with
    | zero => simp [graphemeIndicesAux, utf8Len]
    | succ k =>
      simp only [graphemeIndicesAux, List.getElem?_cons_succ, List.take_succ_cons,
        List.flatten_cons, ih (off + utf8Len g) k, utf8Len_append]
      rw [Nat.add_assoc]

theorem graphemeIndices_getElem (l : List Char) (k : Nat) :
    (graphemeIndices l)[k]? =
      ((graphemeClusters l)[k]?).map
        (fun g => (utf8Len (((graphemeClusters l).take k).flatten), g)) := by
  simpa [graphemeIndices] using graphemeIndicesAux_getElem 0 (graphemeClusters l) k

theorem graphemeIndices_length (l : List Char) :
    (graphemeIndices l).length = (graphemeClusters l).length :=
  graphemeIndicesAux_length 0 (graphemeClusters l)

theorem getElem?_insertIdx_of_lt {α : Type} (l : List α) (i j : Nat) (a : α)
    (h : j < i) : (l.insertIdx i a)[j]? = l[j]? := by
  induction l generalizing i j with
  | nil =>
    cases i with
    | zero => omega
    | succ i => rw [List.insertIdx_succ_nil]
  | cons b l ih =>
    cases i with
    | zero => omega
    | succ i =>
      cases j with
      | zero => simp [List.insertIdx_succ_cons]
      | succ j => simp [List.insertIdx_succ_cons, ih i j (by omega)]

theorem xAtLine_of_lt (m : FontMetrics) (sc : ℤ) (cs : List Char) (column : Nat)
    (h : column < cs.length) :
    xAtLine m sc cs column = some (glyphX m sc cs column) := by
  simp [xAtLine, List.getElem?_eq_getElem h]

theorem xAtLine_of_gt (m : FontMetrics) (sc : ℤ) (cs : List Char) (column : Nat)
    (h : cs.length < column) :
    xAtLine m sc cs column = none := by
  have h1 : cs[column]? = none := List.getElem?_eq_none (le_of_lt h)
  have h2 : cs[column - 1]? = none := List.getElem?_eq_none (by omega)
  have h3 : column ≠ 0 := by omega
  simp [xAtLine, h1, h2, h3]

theorem xAtLine_of_eq (m : FontMetrics) (sc : ℤ) (cs : List Char) (column : Nat)
    (hlt : column - 1 < cs.length) (hn : cs.length ≤ column) (h0 : column ≠ 0) :
    xAtLine m sc cs column =
      some (glyphX m sc cs (column - 1) + m.bw (cs.get ⟨column - 1, hlt⟩)) := by
  have h1 : cs[column]? = none := List.getElem?_eq_none hn
  have h2 : cs[column - 1]? = some (cs.get ⟨column - 1, hlt⟩) := by
    rw [List.getElem?_eq_getElem hlt]
    rfl
  simp [xAtLine, h1, h0, h2]

theorem xAtLine_some_iff (m : FontMetrics) (sc : ℤ) (cs : List Char) (column : Nat) :
    (∃ x, xAtLine m sc cs column = some x) ↔
      (column ≤ cs.length ∧ (column ≠ 0 ∨ cs ≠ [])) := by
  rcases Nat.lt_trichotomy column cs.length with hlt | heq | hgt
  · refine iff_of_true ⟨_, xAtLine_of_lt m sc cs column hlt⟩ ⟨le_of_lt hlt, Or.inr ?_⟩
    intro h
    subst h
    simp at hlt
  · rcases Nat.eq_zero_or_pos column with h0 | h0
    · subst h0
      have hnil : cs = [] := List.length_eq_zero.mp heq.symm
      subst hnil
      refine iff_of_false ?_ ?_
      · rintro ⟨x, hx⟩
        simp [xAtLine] at hx
      · rintro ⟨-, h | h⟩ <;> simp at h
    · have h0' : column ≠ 0 := by omega
      have hlt : column - 1 < cs.length := by omega
      exact iff_of_true ⟨_, xAtLine_of_eq m sc cs column hlt (le_of_eq heq.symm) h0'⟩
        ⟨le_of_eq heq, Or.inl h0'⟩
  · refine iff_of_false ?_ ?_
    · rintro ⟨x, hx⟩
      rw [xAtLine_of_gt m sc cs column hgt] at hx
      exact Option.noConfusion hx
    · rintro ⟨h, -⟩
      omega

theorem cursor_x_position_eq (m : FontMetrics) (sc : ℤ) (text : List (List Char))
    (row column : Nat) (cs : List Char) (h : text[row]? = some cs) :
    cursor_x_position m row column text sc = some (xAtLine m sc cs column) := by
  simp [cursor_x_position, h]

theorem clampToLineEnd_eq (m : FontMetrics) (sc : ℤ) (text : List (List Char))
    (row : Nat) (cs : List Char) (h : text[row]? = some cs) :
    clampToLineEnd m sc text row =
      some (utf8Len cs, (xAtLine m sc cs (utf8Len cs)).getD 0) := by
  simp [clampToLineEnd, h, cursor_x_position_eq m sc text row (utf8Len cs) cs h]

theorem input_special_left_noop (m : FontMetrics) (sc : ℤ) (text : List (List Char))
    (x : ℤ) :
    input_special m sc .left ⟨text, ⟨0, 0, x⟩⟩ = some ⟨text, ⟨0, 0, x⟩⟩ := rfl

theorem input_special_up_home (m : FontMetrics) (sc : ℤ) (text : List (List Char))
    (column : Nat) (x : ℤ) :
    input_special m sc .up ⟨text, ⟨0, column, x⟩⟩ = some ⟨text, ⟨0, 0, 0⟩⟩ := rfl

theorem input_special_left_dec (m : FontMetrics) (sc : ℤ) (text : List (List Char))
    (row column : Nat) (x x0 : ℤ) (cs : List Char)
    (hcs : text[row]? = some cs) (h0 : column ≠ 0)
    (hx : xAtLine m sc cs (column - 1) = some x) :
    input_special m sc .left ⟨text, ⟨row, column, x0⟩⟩ =
      some ⟨text, ⟨row, column - 1, x⟩⟩ := by
  have h1 := cursor_x_position_eq m sc text row (column - 1) cs hcs
  simp [input_special, h0, h1, hx]

theorem input_special_up_keep (m : FontMetrics) (sc : ℤ) (text : List (List Char))
    (row column : Nat) (x x0 : ℤ) (cs : List Char)
    (hrow : row ≠ 0) (hcs : text[row - 1]? = some cs)
    (hx : xAtLine m sc cs column = some x) :
    input_special m sc .up ⟨text, ⟨row, column, x0⟩⟩ =
      some ⟨text, ⟨row - 1, column, x⟩⟩ := by
  have h1 := cursor_x_position_eq m sc text (row - 1) column cs hcs
  simp [input_special, hrow, h1, hx]

theorem input_special_down_clamp (m : FontMetrics) (sc : ℤ) (text : List (List Char))
    (row column : Nat) (x0 : ℤ) (short : List Char)
    (hshort : text[row + 1]? = some short)
    (hcol : xAtLine m sc short column = none) :
    input_special m sc .down ⟨text, ⟨row, column, x0⟩⟩ =
      some ⟨text, ⟨row + 1, utf8Len short, (xAtLine m sc short (utf8Len short)).getD 0⟩⟩ := by
  obtain ⟨hlt, -⟩ := List.getElem?_eq_some.mp hshort
  have h1 := cursor_x_position_eq m sc text (row + 1) column short hshort
  have h2 := clampToLineEnd_eq m sc text (row + 1) short hshort
  have hz : text.length ≠ 0 := by omega
  have hne : row ≠ text.length - 1 := by omega
  simp [input_special, hz, hne, h1, hcol, h2]

theorem input_special_down_end (m : FontMetrics) (sc : ℤ) (text : List (List Char))
    (row column : Nat) (x0 : ℤ) (cs : List Char)
    (hcs : text[row]? = some cs) (hlast : row = text.length - 1) :
    input_special m sc .down ⟨text, ⟨row, column, x0⟩⟩ =
      some ⟨text, ⟨row, utf8Len cs, (xAtLine m sc cs (utf8Len cs)).getD 0⟩⟩ := by
  obtain ⟨hlt, -⟩ := List.getElem?_eq_some.mp hcs
  have h2 := clampToLineEnd_eq m sc text row cs hcs
  have hz : text.length ≠ 0 := by omega
  have hne : ¬(row ≠ text.length - 1) := by omega
  simp [input_special, hz, if_neg hne, h2]

theorem input_special_right_adv (m : FontMetrics) (sc : ℤ) (text : List (List Char))
    (row column : Nat) (x x0 : ℤ) (cs : List Char)
    (hcs : text[row]? = some cs)
    (hx : xAtLine m sc cs (column + 1) = some x) :
    input_special m sc .right ⟨text, ⟨row, column, x0⟩⟩ =
      some ⟨text, ⟨row, column + 1, x⟩⟩ := by
  obtain ⟨hlt, -⟩ := List.getElem?_eq_some.mp hcs
  have h1 := cursor_x_position_eq m sc text row (column + 1) cs hcs
  have hz : text.length ≠ 0 := by omega
  by_cases hrow : row = text.length - 1
  · subst hrow
    simp [input_special, hz, h1, hx]
  · simp [input_special, hz, hrow, h1, hx]

theorem input_special_right_wrap (m : FontMetrics) (sc : ℤ) (text : List (List Char))
    (row column : Nat) (x0 : ℤ) (cs : List Char)
    (hcs : text[row]? = some cs) (hrow : row ≠ text.length - 1)
    (hx : xAtLine m sc cs (column + 1) = none) :
    input_special m sc .right ⟨text, ⟨row, column, x0⟩⟩ =
      some ⟨text, ⟨row + 1, 0, 0⟩⟩ := by
  obtain ⟨hlt, -⟩ := List.getElem?_eq_some.mp hcs
  have h1 := cursor_x_position_eq m sc text row (column + 1) cs hcs
  have hz : text.length ≠ 0 := by omega
  simp [input_special, hz, hrow, h1, hx]

theorem input_special_right_noop (m : FontMetrics) (sc : ℤ) (text : List (List Char))
    (row column : Nat) (x0 : ℤ) (cs : List Char)
    (hcs : text[row]? = some cs) (hrow : row = text.length - 1)
    (hx : xAtLine m sc cs (column + 1) = none) :
    input_special m sc .right ⟨text, ⟨row, column, x0⟩⟩ =
      some ⟨text, ⟨row, column, x0⟩⟩ := by
  obtain ⟨hlt, -⟩ := List.getElem?_eq_some.mp hcs
  have h1 := cursor_x_position_eq m sc text row (column + 1) cs hcs
  have hz : text.length ≠ 0 := by omega
  have hne : ¬(row ≠ text.length - 1) := by omega
  simp [input_special, hz, if_neg hne, h1, hx]

theorem input_special_text_eq (m : FontMetrics) (sc : ℤ) (key : Key)
    (s s2 : EditorState) (h : input_special m sc key s = some s2) :
    s2.text = s.text := by
  cases key <;>
    simp only [input_special] at h <;>
    (repeat' split at h) <;>
    (try exact Option.noConfusion h) <;>
    (injection h with h2; rw [← h2])

/-- C1: the claim says every finite sequence of public events executes totally
starting from any freshly constructed buffer with the cursor at (0,0).  The code
violates this: `CodeView::input`'s Down arm guards with
`cursor_row != text.len()` instead of `text.len() - 1`, so a single MoveDown on
the one-line buffer built from source "a" walks past the end and indexes
`text[1]` — an out-of-bounds panic (for any width map); and from source "ab\n",
MoveDown followed by Backspace panics in `String::remove` because `handle_left`
leaves `cursor_column` at the end of the merged-into line. -/
theorem C1_navigation_panics :
    (∀ w : Char → Option ℤ, cvRun w [.down] (codeView_new ['a']) = none) ∧
      cvRun unitWidths [.down, .back] (codeView_new ['a', 'b', '\n']) = none :=
  ⟨fun _ => rfl, by decide⟩

/-- C2: the claim says construction from the empty source yields exactly one
empty line, never zero lines.  The code violates this: `"".lines()` yields no
lines at all, and nothing is pushed since the empty string does not end with
`'\n'`, so both `CodeView::new` and `TextArea::_new` produce a zero-line buffer;
in single-line mode `TextArea::_new`'s own `assert_eq!(split_text.len(), 1)`
then fails. -/
theorem C2_empty_source_zero_lines :
    codeView_split_text [] = [] ∧ textArea_split_text true [] = [] ∧
      (textArea_split_text false []).length ≠ 1 :=
  ⟨by decide, by decide, by decide⟩

/-- C5: counterexample to the claim that MoveUp anywhere on the first row is a
no-op: on buffer ["ab"] with cursor (0,1) and x offset 1, MoveUp moves the
cursor to column 0 with x offset 0, a changed state. -/
theorem C5_counterexample :
    input_special unitMetrics 0 .up ⟨[['a', 'b']], ⟨0, 1, 1⟩⟩ =
        some ⟨[['a', 'b']], ⟨0, 0, 0⟩⟩ ∧
      (⟨0, 0, 0⟩ : Cursor) ≠ ⟨0, 1, 1⟩ :=
  ⟨by decide, by decide⟩

/-- C5 (amended): MoveLeft at (0,0) and MoveRight at the end of the last row
leave the whole state unchanged; but MoveUp on the first row RESETS the cursor
to column 0 with x offset 0, and MoveDown on the last row moves the column to
the line's byte length (end of line) — the latter two are no-ops only when the
cursor is already there. -/
theorem C5_boundary_moves (m : FontMetrics) (sc : ℤ) (text : List (List Char))
    (row column : Nat) (x : ℤ) (cs : List Char) (hcs : text[row]? = some cs) :
    (row = 0 → column = 0 →
        input_special m sc .left ⟨text, ⟨row, column, x⟩⟩ =
          some ⟨text, ⟨row, column, x⟩⟩) ∧
      (row = text.length - 1 → cs.length ≤ column →
        input_special m sc .right ⟨text, ⟨row, column, x⟩⟩ =
          some ⟨text, ⟨row, column, x⟩⟩) ∧
      (row = 0 →
        input_special m sc .up ⟨text, ⟨row, column, x⟩⟩ = some ⟨text, ⟨0, 0, 0⟩⟩) ∧
      (row = text.length - 1 →
        (input_special m sc .down ⟨text, ⟨row, column, x⟩⟩).map
            (fun s => (s.cursor.row, s.cursor.column)) = some (row, utf8Len cs)) := by
  refine ⟨?_, ?_, ?_, ?_⟩
  · rintro rfl rfl
    exact input_special_left_noop m sc text x
  · intro hlast hcol
    exact input_special_right_noop m sc text row column x cs hcs hlast
      (xAtLine_of_gt m sc cs (column + 1) (by omega))
  · rintro rfl
    exact input_special_up_home m sc text column x
  · intro hlast
    rw [input_special_down_end m sc text row column x cs hcs hlast]
    rfl

/-- Witness for C5_boundary_moves on the buffer ["ab"]: MoveLeft at (0,0) and
MoveRight at (0,2) are no-ops, MoveUp at (0,1) resets to (0,0,0), MoveDown at
(0,1) moves the column to 2. -/
theorem C5_witness :
    input_special unitMetrics 0 .left ⟨[['a', 'b']], ⟨0, 0, 0⟩⟩ =
        some ⟨[['a', 'b']], ⟨0, 0, 0⟩⟩ ∧
      input_special unitMetrics 0 .right ⟨[['a', 'b']], ⟨0, 2, 2⟩⟩ =
        some ⟨[['a', 'b']], ⟨0, 2, 2⟩⟩ ∧
      input_special unitMetrics 0 .up ⟨[['a', 'b']], ⟨0, 1, 1⟩⟩ =
        some ⟨[['a', 'b']], ⟨0, 0, 0⟩⟩ ∧
      (input_special unitMetrics 0 .down ⟨[['a', 'b']], ⟨0, 1, 1⟩⟩).map
          (fun s => (s.cursor.row, s.cursor.column)) = some (0, 2) :=
  ⟨(C5_boundary_moves unitMetrics 0 [['a', 'b']] 0 0 0 ['a', 'b'] rfl).1 rfl rfl,
   (C5_boundary_moves unitMetrics 0 [['a', 'b']] 0 2 2 ['a', 'b'] rfl).2.1 rfl (by decide),
   (C5_boundary_moves unitMetrics 0 [['a', 'b']] 0 1 1 ['a', 'b'] rfl).2.2.1 rfl,
   (C5_boundary_moves unitMetrics 0 [['a', 'b']] 0 1 1 ['a', 'b'] rfl).2.2.2 rfl⟩

/-- C9: counterexample to the claim that `cursor_x_position` returns Some for
every column with 0 ≤ column ≤ grapheme count: on an empty line, column 0
satisfies 0 ≤ 0 = count, yet the function returns None (inner `none`; the
glyph list is empty, so `get(0)` fails and the `column != 0` fallback is
skipped). -/
theorem C9_counterexample :
    cursor_x_position unitMetrics 0 0 [[]] 0 = some none ∧
      ¬∃ x, cursor_x_position unitMetrics 0 0 [[]] 0 = some (some x) := by
  refine ⟨by decide, ?_⟩
  rintro ⟨x, hx⟩
  rw [show cursor_x_position unitMetrics 0 0 [[]] 0 = some none from by decide] at hx
  simp at hx

/-- C9 (amended): for a valid row, `cursor_x_position` returns Some exactly when
column ≤ the line's CHARACTER count (not grapheme count) and the position is not
column 0 of an empty line; in particular column 0 of an empty line yields None,
and every column beyond the character count yields None. -/
theorem C9_x_at_some_iff (m : FontMetrics) (sc : ℤ) (text : List (List Char))
    (row column : Nat) (cs : List Char) (hcs : text[row]? = some cs) :
    (∃ x, cursor_x_position m row column text sc = some (some x)) ↔
      (column ≤ cs.length ∧ (column ≠ 0 ∨ cs ≠ [])) := by
  simp only [cursor_x_position_eq m sc text row column cs hcs, Option.some.injEq]
  exact xAtLine_some_iff m sc cs column

/-- Witness for C9_x_at_some_iff at row 0, column 1 of the one-line buffer
["a"]: the end-of-line position exists. -/
theorem C9_witness :
    (∃ x, cursor_x_position unitMetrics 0 1 [['a']] 0 = some (some x)) ↔
      (1 ≤ (['a'] : List Char).length ∧ ((1 : Nat) ≠ 0 ∨ (['a'] : List Char) ≠ [])) :=
  C9_x_at_some_iff unitMetrics 0 [['a']] 0 1 ['a'] rfl

/-- C10: pure navigation never edits text — whenever `input_special` completes
on any of the four arrow keys (indeed on any key), the text buffer of the
resulting state is byte-for-byte the one of the starting state; only the cursor
fields change. -/
theorem C10_navigation_preserves_text (m : FontMetrics) (sc : ℤ) (key : Key)
    (s s2 : EditorState) (h : input_special m sc key s = some s2) :
    s2.text = s.text :=
  input_special_text_eq m sc key s s2 h

/-- Witness for C10_navigation_preserves_text: MoveUp at (0,1) on ["ab"] lands
in a state with the same text. -/
theorem C10_witness :
    (EditorState.mk [['a', 'b']] ⟨0, 0, 0⟩).text =
      (EditorState.mk [['a', 'b']] ⟨0, 1, 1⟩).text :=
  C10_navigation_preserves_text unitMetrics 0 .up ⟨[['a', 'b']], ⟨0, 1, 1⟩⟩
    ⟨[['a', 'b']], ⟨0, 0, 0⟩⟩ (by decide)

/-- C8: counterexample to the claim over REACHABLE states: from the fresh cursor
(0,0) on the buffer ["hello","éé"], the event sequence Right×4, Down reaches the
state (row 1, column 4, x 0) — column 4 is the BYTE length of "éé", beyond its
2 characters — and from there MoveLeft does not complete at all (it panics on
`unwrap`), so MoveLeft-then-MoveRight cannot restore the state. -/
theorem C8_counterexample :
    runKeys unitMetrics 0 [.right, .right, .right, .right, .down]
        ⟨[['h', 'e', 'l', 'l', 'o'], ['é', 'é']], ⟨0, 0, 0⟩⟩ =
        some ⟨[['h', 'e', 'l', 'l', 'o'], ['é', 'é']], ⟨1, 4, 0⟩⟩ ∧
      (input_special unitMetrics 0 .left
            ⟨[['h', 'e', 'l', 'l', 'o'], ['é', 'é']], ⟨1, 4, 0⟩⟩).bind
          (input_special unitMetrics 0 .right) = none :=
  ⟨by decide, by decide⟩

/-- C8 (amended): MoveLeft then MoveRight restores the exact starting state
(text, row, column and x offset) from every state that satisfies the controller
invariant — column within the line's character count with a consistent x offset —
rather than from every reachable state (reachable states can violate the
invariant after a clamp to the byte length of a non-ASCII line, and there
MoveLeft panics). -/
theorem C8_left_right_inverse (m : FontMetrics) (sc : ℤ) (text : List (List Char))
    (row column : Nat) (x : ℤ) (cs : List Char)
    (hcs : text[row]? = some cs)
    (h0 : column ≠ 0) (hle : column ≤ cs.length)
    (hx : cursor_x_position m row column text sc = some (some x)) :
    (input_special m sc .left ⟨text, ⟨row, column, x⟩⟩).bind
        (input_special m sc .right) = some ⟨text, ⟨row, column, x⟩⟩ := by
  have hx2 : xAtLine m sc cs column = some x := by
    rw [cursor_x_position_eq m sc text row column cs hcs] at hx
    exact Option.some.inj hx
  have hdec : column - 1 < cs.length := by omega
  have hsucc : column - 1 + 1 = column := by omega
  have hx3 : xAtLine m sc cs (column - 1 + 1) = some x := by
    rw [hsucc]
    exact hx2
  rw [input_special_left_dec m sc text row column (glyphX m sc cs (column - 1)) x cs
      hcs h0 (xAtLine_of_lt m sc cs (column - 1) hdec)]
  rw [Option.some_bind]
  rw [input_special_right_adv m sc text row (column - 1) x (glyphX m sc cs (column - 1))
      cs hcs hx3, hsucc]

/-- Witness for C8_left_right_inverse on ["ab"] at (0,1) with the consistent
x offset 1. -/
theorem C8_witness :
    (input_special unitMetrics 0 .left ⟨[['a', 'b']], ⟨0, 1, 1⟩⟩).bind
        (input_special unitMetrics 0 .right) = some ⟨[['a', 'b']], ⟨0, 1, 1⟩⟩ :=
  C8_left_right_inverse unitMetrics 0 [['a', 'b']] 0 1 1 ['a', 'b'] rfl
    (by decide) (by decide) (by decide)

/-- C7: counterexample to both halves of the claim on a non-ASCII shorter line.
Moving down from ("abc", column 3) into "éé" — a strictly shorter line of 2
graphemes — clamps the column to 4, the BYTE length of "éé", not to its length
2; and the subsequent MoveUp does NOT keep that clamped column: column 4 finds
no glyph in "abc", so the cursor is re-clamped to (0,3). -/
theorem C7_counterexample :
    (input_special unitMetrics 0 .down ⟨[['a', 'b', 'c'], ['é', 'é']], ⟨0, 3, 3⟩⟩).map
        (fun s => (s.cursor.row, s.cursor.column)) = some (1, 4) ∧
      (graphemeClusters ['é', 'é']).length = 2 ∧
      ((input_special unitMetrics 0 .down
            ⟨[['a', 'b', 'c'], ['é', 'é']], ⟨0, 3, 3⟩⟩).bind
          (input_special unitMetrics 0 .up)).map
        (fun s => (s.cursor.row, s.cursor.column)) = some (0, 3) ∧
      ((4 : Nat) ≠ 2 ∧ (3 : Nat) ≠ 4) :=
  ⟨by decide, by decide, by decide, by decide, by decide⟩

/-- C7 (amended): MoveDown into a strictly shorter ASCII line (every character
one UTF-8 byte) clamps the column to that line's length — its byte length,
which under the ASCII condition equals its grapheme count — and a following
MoveUp back to the strictly longer line keeps the clamped column rather than
restoring the original one.  For a non-ASCII shorter line neither half of the
original claim survives: the clamp is to the byte length, which can exceed the
character count, and the return trip re-clamps instead of keeping the column
(see the counterexample). -/
theorem C7_vertical_clamp (m : FontMetrics) (sc : ℤ) (text : List (List Char))
    (row column : Nat) (x : ℤ) (long short : List Char)
    (hlong : text[row]? = some long)
    (hshort : text[row + 1]? = some short)
    (hascii : ∀ c ∈ short, charLen c = 1)
    (hcol : short.length < column)
    (hsl : short.length < long.length) :
    (input_special m sc .down ⟨text, ⟨row, column, x⟩⟩).map
        (fun s => (s.cursor.row, s.cursor.column)) = some (row + 1, short.length) ∧
      ((input_special m sc .down ⟨text, ⟨row, column, x⟩⟩).bind
          (input_special m sc .up)).map
        (fun s => (s.cursor.row, s.cursor.column)) = some (row, short.length) := by
  have hlen : utf8Len short = short.length := utf8Len_ascii short hascii
  have hdown := input_special_down_clamp m sc text row column x short hshort
    (xAtLine_of_gt m sc short column hcol)
  constructor
  · rw [hdown, hlen]
    rfl
  · rw [hdown, Option.some_bind]
    have hup := input_special_up_keep m sc text (row + 1) (utf8Len short)
      (glyphX m sc long (utf8Len short)) ((xAtLine m sc short (utf8Len short)).getD 0)
      long (by omega) (by simpa using hlong)
      (by rw [hlen]; exact xAtLine_of_lt m sc long short.length hsl)
    rw [hup]
    simp [hlen]

/-- Witness for C7_vertical_clamp: the spec's own example — buffer
["hello","hi"], cursor (0,4): MoveDown yields (1,2) and a subsequent MoveUp
yields (0,2), not (0,4). -/
theorem C7_witness :
    (input_special unitMetrics 0 .down
          ⟨[['h', 'e', 'l', 'l', 'o'], ['h', 'i']], ⟨0, 4, 4⟩⟩).map
        (fun s => (s.cursor.row, s.cursor.column)) = some (1, 2) ∧
      ((input_special unitMetrics 0 .down
            ⟨[['h', 'e', 'l', 'l', 'o'], ['h', 'i']], ⟨0, 4, 4⟩⟩).bind
          (input_special unitMetrics 0 .up)).map
        (fun s => (s.cursor.row, s.cursor.column)) = some (0, 2) :=
  C7_vertical_clamp unitMetrics 0 [['h', 'e', 'l', 'l', 'o'], ['h', 'i']] 0 4 4
    ['h', 'e', 'l', 'l', 'o'] ['h', 'i'] rfl rfl (by decide) (by decide) (by decide)

/-- C3: counterexample to "places the cursor exactly at the former
end-of-previous-line boundary": with buffer ["é","x"] and cursor (1,0),
Backspace merges to ["éx"] but places the cursor at column 2 — the BYTE length
of "é" — while the former end-of-previous-line boundary is grapheme (and
character) index 1. -/
theorem C3_counterexample :
    input_char unitMetrics 0 '\x7f' ⟨[['é'], ['x']], ⟨1, 0, 0⟩⟩ =
        some ⟨[['é', 'x']], ⟨0, 2, 2⟩⟩ ∧
      (graphemeClusters ['é']).length = 1 ∧ (2 : Nat) ≠ 1 :=
  ⟨by decide, by decide, by decide⟩

/-- C3 (amended): for every buffer and cursor (row, 0) with row > 0 such that
the PREVIOUS line is ASCII (every character one UTF-8 byte) and the two lines
are not both empty, Backspace merges line row onto line row-1 (removing line
row) and places the cursor exactly at the former end-of-previous-line boundary:
the previous line's byte length, which under the ASCII condition equals its
grapheme count.  Outside these conditions the code misbehaves: with a non-ASCII
previous line the byte-length column overshoots the boundary (see the
counterexample), and merging ["é",""] — lines not both empty — panics in the
final Left re-sync's `unwrap`.  On the spec's example ["ab","cd"], cursor
(1,0), this yields ["abcd"] with cursor (0,2). -/
theorem C3_backspace_merge (m : FontMetrics) (sc : ℤ) (text : List (List Char))
    (row : Nat) (x0 : ℤ) (prev cur : List Char)
    (hrow : row ≠ 0)
    (hprev : text[row - 1]? = some prev)
    (hcur : text[row]? = some cur)
    (hascii : ∀ c ∈ prev, charLen c = 1)
    (hne : prev ≠ [] ∨ cur ≠ []) :
    (input_char m sc '\x7f' ⟨text, ⟨row, 0, x0⟩⟩).map
        (fun s => (s.text, s.cursor.row, s.cursor.column)) =
      some ((text.eraseIdx row).set (row - 1) (prev ++ cur), row - 1, prev.length) := by
  obtain ⟨hlt, -⟩ := List.getElem?_eq_some.mp hcur
  have hr2 : row - 1 < (text.eraseIdx row).length := by
    rw [List.length_eraseIdx, if_pos hlt]
    omega
  have h2 : (text.eraseIdx row)[row - 1]? = some prev := by
    rw [List.getElem?_eraseIdx, if_pos (by omega)]
    exact hprev
  have h3 : ((text.eraseIdx row).set (row - 1) (prev ++ cur))[row - 1]? =
      some (prev ++ cur) := by
    rw [List.getElem?_set, if_pos rfl, if_pos hr2]
  have hplen : utf8Len prev = prev.length := utf8Len_ascii prev hascii
  have hx : ∃ x, xAtLine m sc (prev ++ cur) (utf8Len prev + 1 - 1) = some x := by
    rw [Nat.add_sub_cancel, hplen, xAtLine_some_iff]
    refine ⟨by simp, ?_⟩
    rcases hne with h | h
    · exact Or.inl (fun hh => h (List.length_eq_zero.mp hh))
    · refine Or.inr (by simp [h])
  obtain ⟨x, hx⟩ := hx
  have hleft := input_special_left_dec m sc
    ((text.eraseIdx row).set (row - 1) (prev ++ cur)) (row - 1) (utf8Len prev + 1) x x0
    (prev ++ cur) h3 (by omega) hx
  rw [hplen] at hleft
  simp [input_char, hrow, hcur, h2, hleft, hplen]

/-- Witness for C3_backspace_merge: the spec's example — buffer ["ab","cd"],
cursor (1,0), Backspace yields buffer ["abcd"] with cursor (0,2). -/
theorem C3_witness :
    (input_char unitMetrics 0 '\x7f' ⟨[['a', 'b'], ['c', 'd']], ⟨1, 0, 0⟩⟩).map
        (fun s => (s.text, s.cursor.row, s.cursor.column)) =
      some ([['a', 'b', 'c', 'd']], 0, 2) :=
  C3_backspace_merge unitMetrics 0 [['a', 'b'], ['c', 'd']] 1 0 ['a', 'b'] ['c', 'd']
    (by decide) rfl rfl (by decide) (Or.inr (by decide))

/-- C4: counterexample to "moves the cursor to (row+1, 0)": with buffer
["e◌́x"] (an "e" with combining acute as one grapheme of two characters,
followed by "x") and the valid cursor (0,1), line-break insertion splits the
buffer correctly into ["e◌́","x"], but the following Right re-sync finds a
glyph at character index 2 of the two-character prefix and leaves the cursor at
(0,2) instead of (1,0). -/
theorem C4_counterexample :
    input_char unitMetrics 0 '\r' ⟨[['e', '́', 'x']], ⟨0, 1, 0⟩⟩ =
        some ⟨[['e', '́'], ['x']], ⟨0, 2, 2⟩⟩ ∧
      ((0, 2) : Nat × Nat) ≠ (1, 0) :=
  ⟨by decide, by decide⟩

/-- C4 (amended): line-break insertion always splits line row at grapheme index
column — the prefix of the first `column` grapheme clusters stays at row, the
suffix becomes line row+1 — and the cursor then moves to (row+1, 0) with
x offset 0 exactly when the prefix contains as many characters as grapheme
clusters (in particular always for ASCII); when the prefix contains a
multi-character cluster the cursor instead stays on row and advances one
character. -/
theorem C4_linebreak_split (m : FontMetrics) (sc : ℤ) (text : List (List Char))
    (row column : Nat) (x0 : ℤ) (cs : List Char)
    (hcs : text[row]? = some cs)
    (hcol : column ≤ (graphemeClusters cs).length)
    (hpre : (((graphemeClusters cs).take column).flatten).length = column) :
    input_char m sc '\r' ⟨text, ⟨row, column, x0⟩⟩ =
      some ⟨(text.set row (((graphemeClusters cs).take column).flatten)).insertIdx
          (row + 1) (((graphemeClusters cs).drop column).flatten), ⟨row + 1, 0, 0⟩⟩ := by
  obtain ⟨hlt, -⟩ := List.getElem?_eq_some.mp hcs
  set pre := ((graphemeClusters cs).take column).flatten with hpredef
  set post := ((graphemeClusters cs).drop column).flatten with hpostdef
  have hps : pre ++ post = cs := by
    rw [hpredef, hpostdef, ← List.flatten_append, List.take_append_drop,
      flatten_graphemeClusters]
  have hsplit : splitAtByte cs (utf8Len pre) = some (pre, post) := by
    rw [← hps]
    exact splitAtByte_utf8Len pre post
  have htext2 : ((text.set row pre).insertIdx (row + 1) post)[row]? = some pre := by
    rw [getElem?_insertIdx_of_lt _ _ _ _ (Nat.lt_succ_self row), List.getElem?_set,
      if_pos rfl, if_pos (by simpa using hlt)]
  have hlen2 : ((text.set row pre).insertIdx (row + 1) post).length = text.length + 1 := by
    rw [List.length_insertIdx _ _ (by simpa using Nat.succ_le_of_lt hlt), List.length_set]
  have hwrap := input_special_right_wrap m sc ((text.set row pre).insertIdx (row + 1) post)
    row column x0 pre htext2 (by rw [hlen2]; omega)
    (xAtLine_of_gt m sc pre (column + 1) (by omega))
  rcases Nat.lt_or_ge column (graphemeClusters cs).length with hc | hc
  · have hgsome : (graphemeIndices cs)[column]? =
        some (utf8Len pre, (graphemeClusters cs).get ⟨column, hc⟩) := by
      rw [graphemeIndices_getElem, List.getElem?_eq_getElem hc]
      rfl
    simp [input_char, hcs, hgsome, hsplit, hwrap]
  · have hceq : column = (graphemeClusters cs).length := le_antisymm hcol hc
    have hgnone : (graphemeIndices cs)[column]? = none := by
      rw [graphemeIndices_getElem, List.getElem?_eq_none (le_of_eq hceq.symm)]
      rfl
    have hall : utf8Len cs = utf8Len pre := by
      rw [hpredef, hceq, List.take_length, flatten_graphemeClusters]
    simp [input_char, hcs, hgnone, hall, hsplit, hwrap]

/-- Witness for C4_linebreak_split: the spec's example — buffer ["abcd"], cursor
(0,2), line-break insertion yields ["ab","cd"] with cursor (1,0). -/
theorem C4_witness :
    input_char unitMetrics 0 '\r' ⟨[['a', 'b', 'c', 'd']], ⟨0, 2, 2⟩⟩ =
      some ⟨[['a', 'b'], ['c', 'd']], ⟨1, 0, 0⟩⟩ :=
  C4_linebreak_split unitMetrics 0 [['a', 'b', 'c', 'd']] 0 2 2 ['a', 'b', 'c', 'd']
    rfl (by decide) (by decide)

/-- C6: counterexample to "fails with OutOfBounds and leaves the buffer
unchanged": inserting 'x' at (0,5) in the buffer ["ab"] — column 5 far beyond
the 2-grapheme line — silently clamps the byte index to the end of the line and
CHANGES the buffer to ["abx"]; no error value exists anywhere in the code. -/
theorem C6_counterexample :
    input_char unitMetrics 0 'x' ⟨[['a', 'b']], ⟨0, 5, 0⟩⟩ =
        some ⟨[['a', 'b', 'x']], ⟨0, 5, 0⟩⟩ ∧
      ([['a', 'b', 'x']] : List (List Char)) ≠ [['a', 'b']] :=
  ⟨by decide, by decide⟩

/-- C6 (amended): for every valid row and every column strictly greater than the
line's grapheme count, inserting a character at (row, column) does NOT fail:
`grapheme_indices.nth(column)` yields nothing and the byte index is silently
clamped to the end of the line (`unwrap_or_else(|| text[row].len())`), so the
character is appended at the end of line row and the buffer changes. -/
theorem C6_insert_clamps (m : FontMetrics) (sc : ℤ) (ch : Char)
    (text : List (List Char)) (row column : Nat) (x0 : ℤ) (cs : List Char)
    (hch1 : ch ≠ '\x7f') (hch2 : ch ≠ '\r')
    (hcs : text[row]? = some cs)
    (hcol : (graphemeClusters cs).length < column) :
    (input_char m sc ch ⟨text, ⟨row, column, x0⟩⟩).map (fun s => s.text) =
      some (text.set row (cs ++ [ch])) := by
  obtain ⟨hlt, -⟩ := List.getElem?_eq_some.mp hcs
  have hgnone : (graphemeIndices cs)[column]? = none := by
    rw [graphemeIndices_getElem, List.getElem?_eq_none (le_of_lt hcol)]
    rfl
  have hins := insertCharAtByte_append cs ch
  have htext2 : (text.set row (cs ++ [ch]))[row]? = some (cs ++ [ch]) := by
    rw [List.getElem?_set, if_pos rfl, if_pos hlt]
  have hright : ∃ c2, input_special m sc .right
      ⟨text.set row (cs ++ [ch]), ⟨row, column, x0⟩⟩ =
      some ⟨text.set row (cs ++ [ch]), c2⟩ := by
    rcases hx : xAtLine m sc (cs ++ [ch]) (column + 1) with _ | x
    · by_cases hrow : row = (text.set row (cs ++ [ch])).length - 1
      · exact ⟨_, input_special_right_noop m sc _ row column x0 _ htext2 hrow hx⟩
      · exact ⟨_, input_special_right_wrap m sc _ row column x0 _ htext2 hrow hx⟩
    · exact ⟨_, input_special_right_adv m sc _ row column x x0 _ htext2 hx⟩
  obtain ⟨c2, hright⟩ := hright
  simp [input_char, hch1, hch2, hcs, hgnone, hins, hright]

/-- Witness for C6_insert_clamps: inserting 'x' at column 5 of the 2-character
line "ab" appends it, producing the changed buffer ["abx"]. -/
theorem C6_witness :
    (input_char unitMetrics 0 'x' ⟨[['a', 'b']], ⟨0, 5, 0⟩⟩).map (fun s => s.text) =
      some [['a', 'b', 'x']] :=
  C6_insert_clamps unitMetrics 0 'x' [['a', 'b']] 0 5 0 ['a', 'b']
    (by decide) (by decide) rfl (by decide)
